import Mathlib

/-!
Verification of the textbee API-key credential core.

The repository's credential lifecycle (generation, masked/hashed storage,
prefix-indexed lookup, verification, revocation) is specified in spec.md;
the concrete mechanism (36-character canonical UUID secrets, a 17-character
lookup slice, a bcrypt digest, masking with asterisks, regex-based candidate
matching) appears in src/api/test_api_key_logic.js.  Secrets and all other
character data are embedded as `List Char`.
-/

/-- The fixed lookup-slice length: the source takes `substr(0, 17)` of the
generated key (src/api/test_api_key_logic.js, lines 15 and 30). -/
def prefixLen : Nat := 17

/-- Modelled from the spec: outcome of `Verify(presentedSecret)` —
`Valid(ownerId)` or `Invalid` (spec §4.4). -/
inductive VerifyResult where
  | Valid (ownerId : List Char)
  | Invalid
deriving DecidableEq, Repr

/-- Modelled from the spec: the Credential Record, the only persistent entity
(spec §3).  The salt of the slow hash is carried as its own field (bcrypt
embeds it in the digest string; separating it lets the comparison re-run the
hash with the stored salt). -/
structure CredentialRecord where
  id : Nat
  ownerId : List Char
  lookupPrefix : List Char
  salt : List Char
  secretDigest : List Char
  createdAt : Nat
  revokedAt : Option Nat
  lastVerifiedAt : Option Nat
deriving DecidableEq, Repr

/-- Modelled from the spec: `findCandidatesByPrefix` of the Credential Store
contract — all records whose `lookupPrefix` equals the presented slice,
exact-match equality (spec §4.3). -/
def findCandidatesByPrefix (store : List CredentialRecord) (pfx : List Char) :
    List CredentialRecord :=
  store.filter (fun r => r.lookupPrefix == pfx)

/-- Modelled from the spec: the `CandidateScan` state of the Verifier
(spec §4.4 step 3).  A candidate whose `revokedAt` is non-null is skipped
before the hash comparison; otherwise one slow comparison runs, succeeding
when hashing the presented secret with the candidate's salt reproduces its
digest.  Returns the outcome and the number of hash comparisons performed. -/
def scanCandidates (hashFn : List Char → List Char → List Char)
    (presented : List Char) : List CredentialRecord → VerifyResult × Nat
  | [] => (VerifyResult.Invalid, 0)
  | c :: rest =>
    if c.revokedAt.isSome then
      scanCandidates hashFn presented rest
    else if hashFn c.salt presented = c.secretDigest then
      (VerifyResult.Valid c.ownerId, 1)
    else
      let r := scanCandidates hashFn presented rest
      (r.1, r.2 + 1)

/-- Observable trace of one `Verify` call: the result together with how many
store lookups and hash comparisons the call performed (the spec's
call-counting stub store, §8). -/
structure VerifyTrace where
  result : VerifyResult
  storeLookups : Nat
  hashComparisons : Nat
deriving DecidableEq, Repr

/-- Modelled from the spec: the Verifier state machine
`Start → PrefixLookup → CandidateScan → terminal` (spec §4.4).  `Start`
rejects a presented value shorter than the fixed lookup length without
consulting the store or the hash; otherwise one prefix lookup runs and the
candidates are scanned. -/
def verify (hashFn : List Char → List Char → List Char)
    (store : List CredentialRecord) (presented : List Char) : VerifyTrace :=
  if presented.length < prefixLen then
    ⟨VerifyResult.Invalid, 0, 0⟩
  else
    let cands := findCandidatesByPrefix store (presented.take prefixLen)
    let s := scanCandidates hashFn presented cands
    ⟨s.1, 1, s.2⟩

/-- Modelled from the spec: store-level error taxonomy relevant here
(spec §7): `Conflict` on duplicate id at persist, `NotFound` on revoking an
unknown id. -/
inductive StoreError where
  | Conflict
  | NotFound
deriving DecidableEq, Repr

/-- Modelled from the spec: the Credential Record built by `Issue(ownerId)`
(spec §4.2): `lookupPrefix` is the fixed-length leading slice of the
plaintext, `secretDigest` the salted slow hash of the full plaintext,
`revokedAt = null`. -/
def issuedRecord (hashFn : List Char → List Char → List Char)
    (ownerId secret salt : List Char) (now newId : Nat) : CredentialRecord :=
  { id := newId
    ownerId := ownerId
    lookupPrefix := secret.take prefixLen
    salt := salt
    secretDigest := hashFn salt secret
    createdAt := now
    revokedAt := none
    lastVerifiedAt := none }

/-- Modelled from the spec: `Issue(ownerId) → (plaintextSecret, record)`
(spec §4.2).  The generated secret and the salt enter as parameters (the
Secret Generator and the entropy source are external); the store persists
the new record or fails with `Conflict` on an id collision. -/
def issue (hashFn : List Char → List Char → List Char)
    (store : List CredentialRecord) (ownerId secret salt : List Char)
    (now newId : Nat) :
    Except StoreError (List Char × CredentialRecord × List CredentialRecord) :=
  if store.any (fun r => r.id == newId) then
    Except.error StoreError.Conflict
  else
    let record := issuedRecord hashFn ownerId secret salt now newId
    Except.ok (secret, record, record :: store)

/-- Modelled from the spec: `Revoke(id)` (spec §4.2): sets `revokedAt = now`
if not already set, keeps the original revocation time when already revoked
(idempotent), fails with `NotFound` for an unknown id. -/
def revoke (store : List CredentialRecord) (rid now : Nat) :
    Except StoreError (List CredentialRecord) :=
  if store.any (fun r => r.id == rid) then
    Except.ok (store.map (fun r =>
      if r.id = rid then { r with revokedAt := some (r.revokedAt.getD now) } else r))
  else
    Except.error StoreError.NotFound

/-- Masked stored form of a generated key, from
src/api/test_api_key_logic.js line 15:
`apiKey.substr(0, 17) + asterisk.repeat(18)`. -/
def storedApiKey (apiKey : List Char) : List Char :=
  apiKey.take 17 ++ List.replicate 18 '*'

section Lemmas

/-- Candidate filtering on a cons whose head matches. -/
theorem findCandidatesByPrefix_cons_pos (r : CredentialRecord)
    (store : List CredentialRecord) (pfx : List Char) (h : r.lookupPrefix = pfx) :
    findCandidatesByPrefix (r :: store) pfx = r :: findCandidatesByPrefix store pfx := by
  simp [findCandidatesByPrefix, List.filter_cons, h]

/-- Candidate filtering on a cons whose head does not match. -/
theorem findCandidatesByPrefix_cons_neg (r : CredentialRecord)
    (store : List CredentialRecord) (pfx : List Char) (h : r.lookupPrefix ≠ pfx) :
    findCandidatesByPrefix (r :: store) pfx = findCandidatesByPrefix store pfx := by
  simp [findCandidatesByPrefix, List.filter_cons, h]

/-- A scan over candidates that are each revoked or digest-mismatching ends
in `Invalid`. -/
theorem scanCandidates_all_fail (hashFn : List Char → List Char → List Char)
    (presented : List Char) (l : List CredentialRecord)
    (h : ∀ r ∈ l, r.revokedAt.isSome = true ∨ hashFn r.salt presented ≠ r.secretDigest) :
    (scanCandidates hashFn presented l).1 = VerifyResult.Invalid := by
  induction l with
  | nil => rfl
  | cons c rest ih =>
    have hc := h c (List.mem_cons_self c rest)
    have hrest : ∀ r ∈ rest,
        r.revokedAt.isSome = true ∨ hashFn r.salt presented ≠ r.secretDigest :=
      fun r hr => h r (List.mem_cons_of_mem c hr)
    rcases hc with hrev | hmiss
    · simp [scanCandidates, hrev, ih hrest]
    · by_cases hrev : c.revokedAt.isSome = true
      · simp [scanCandidates, hrev, ih hrest]
      · simp [scanCandidates, hrev, hmiss, ih hrest]

/-- A scan over candidates that are all revoked performs no hash
comparison and ends in `Invalid`. -/
theorem scanCandidates_all_revoked (hashFn : List Char → List Char → List Char)
    (presented : List Char) (l : List CredentialRecord)
    (h : ∀ r ∈ l, r.revokedAt.isSome = true) :
    scanCandidates hashFn presented l = (VerifyResult.Invalid, 0) := by
  induction l with
  | nil => rfl
  | cons c rest ih =>
    have hc := h c (List.mem_cons_self c rest)
    have hrest : ∀ r ∈ rest, r.revokedAt.isSome = true :=
      fun r hr => h r (List.mem_cons_of_mem c hr)
    simp [scanCandidates, hc, ih hrest]

end Lemmas

section SampleData

/-- A concrete injective slow-hash stand-in for witnesses: salt prepended to
the key. -/
def sampleHash (salt key : List Char) : List Char := salt ++ key

/-- A concrete canonical-UUID-shaped generated secret (36 characters,
lowercase hex with dashes at positions 8, 13, 18 and 23). -/
def sampleSecret : List Char := "1b9d6bcd-bbfd-4b2d-9b5d-ab8dfbbd4bed".toList

/-- A concrete salt for witnesses. -/
def sampleSalt : List Char := "s0".toList

/-- A concrete owner identifier for witnesses. -/
def sampleOwner : List Char := "owner-1".toList

/-- A one-record store holding the credential issued from `sampleSecret`. -/
def sampleStore : List CredentialRecord :=
  [issuedRecord sampleHash sampleOwner sampleSecret sampleSalt 0 1]

end SampleData

/-- C4: a presented value that is empty or shorter than the fixed lookup
length is rejected with `Invalid` in the `Start` state, with zero store
lookups and zero hash comparisons. -/
theorem verify_short_input_rejected (hashFn : List Char → List Char → List Char)
    (store : List CredentialRecord) (presented : List Char)
    (hshort : presented.length < prefixLen) :
    verify hashFn store presented = ⟨VerifyResult.Invalid, 0, 0⟩ := by
  simp [verify, hshort]

/-- Witness for C4 at a concrete five-character input. -/
theorem verify_short_input_rejected_witness :
    ("short".toList.length < prefixLen) ∧
      verify sampleHash sampleStore "short".toList = ⟨VerifyResult.Invalid, 0, 0⟩ :=
  ⟨by decide, verify_short_input_rejected sampleHash sampleStore _ (by decide)⟩

/-- C7: candidate lookup is exact — a record is returned by
`findCandidatesByPrefix` iff it is in the store and its `lookupPrefix`
equals the presented slice (no false negatives, no false positives). -/
theorem findCandidatesByPrefix_exact (store : List CredentialRecord)
    (pfx : List Char) (r : CredentialRecord) :
    r ∈ findCandidatesByPrefix store pfx ↔ r ∈ store ∧ r.lookupPrefix = pfx := by
  simp [findCandidatesByPrefix, List.mem_filter]

/-- C10: the masked stored key is the first 17 characters of the plaintext
followed by exactly 18 asterisks, has fixed length 35, and therefore never
equals a 36-character generated plaintext. -/
theorem storedApiKey_shape (apiKey : List Char) (h : apiKey.length = 36) :
    storedApiKey apiKey = apiKey.take 17 ++ List.replicate 18 '*' ∧
    (storedApiKey apiKey).length = 35 ∧
    storedApiKey apiKey ≠ apiKey := by
  have h2 : (storedApiKey apiKey).length = min 17 apiKey.length + 18 := by
    simp [storedApiKey]
  refine ⟨rfl, ?_, ?_⟩
  · rw [h2, h]
    decide
  · intro heq
    have hl := congrArg List.length heq
    rw [h2, h] at hl
    omega

/-- Witness for C10 at the concrete sample secret. -/
theorem storedApiKey_shape_witness :
    sampleSecret.length = 36 ∧
      (storedApiKey sampleSecret = sampleSecret.take 17 ++ List.replicate 18 '*' ∧
       (storedApiKey sampleSecret).length = 35 ∧
       storedApiKey sampleSecret ≠ sampleSecret) :=
  ⟨by decide, storedApiKey_shape sampleSecret (by decide)⟩

/-- C1: verifying the exact plaintext secret immediately after issuance
(no intervening revocation) returns `Valid` with the issued record's owner;
the stored record's `lookupPrefix` is the secret's leading slice and the
digest comparison succeeds. -/
theorem verify_after_issue_valid (hashFn : List Char → List Char → List Char)
    (store : List CredentialRecord) (ownerId secret salt : List Char)
    (now newId : Nat)
    (hlen : prefixLen ≤ secret.length)
    (hfresh : ∀ r ∈ store, r.id ≠ newId) :
    ∃ record store2,
      issue hashFn store ownerId secret salt now newId =
        Except.ok (secret, record, store2) ∧
      record.ownerId = ownerId ∧
      record.lookupPrefix = secret.take prefixLen ∧
      hashFn record.salt secret = record.secretDigest ∧
      (verify hashFn store2 secret).result = VerifyResult.Valid ownerId := by
  have hany : store.any (fun r => r.id == newId) = false := by
    rw [List.any_eq_false]
    intro r hr
    simp [hfresh r hr]
  have hnotshort : ¬ secret.length < prefixLen := Nat.not_lt.mpr hlen
  refine ⟨issuedRecord hashFn ownerId secret salt now newId,
          issuedRecord hashFn ownerId secret salt now newId :: store,
          ?_, rfl, rfl, rfl, ?_⟩
  · simp [issue, hany]
  · simp [verify, hnotshort, findCandidatesByPrefix, List.filter_cons,
      scanCandidates, issuedRecord]

/-- Witness for C1: issuing the sample secret into the empty store and
verifying it yields the sample owner. -/
theorem verify_after_issue_valid_witness :
    (prefixLen ≤ sampleSecret.length ∧ ∀ r ∈ ([] : List CredentialRecord), r.id ≠ 1) ∧
    ∃ record store2,
      issue sampleHash [] sampleOwner sampleSecret sampleSalt 0 1 =
        Except.ok (sampleSecret, record, store2) ∧
      record.ownerId = sampleOwner ∧
      record.lookupPrefix = sampleSecret.take prefixLen ∧
      sampleHash record.salt sampleSecret = record.secretDigest ∧
      (verify sampleHash store2 sampleSecret).result = VerifyResult.Valid sampleOwner :=
  ⟨⟨by decide, by simp⟩,
    verify_after_issue_valid sampleHash [] sampleOwner sampleSecret sampleSalt 0 1
      (by decide) (by simp)⟩

/-- C2: after `Revoke` completes on the issued record, verifying the
previously valid plaintext returns `Invalid`; the revoked candidate is
skipped before the expensive comparison, so zero hash comparisons run and a
revoked record never produces `Accepted`. -/
theorem verify_after_revoke_invalid (hashFn : List Char → List Char → List Char)
    (store : List CredentialRecord) (ownerId secret salt : List Char)
    (now newId t : Nat)
    (hlen : prefixLen ≤ secret.length)
    (hnoshare : ∀ r ∈ store, r.lookupPrefix ≠ secret.take prefixLen) :
    ∃ store3,
      revoke (issuedRecord hashFn ownerId secret salt now newId :: store) newId t =
        Except.ok store3 ∧
      verify hashFn store3 secret = ⟨VerifyResult.Invalid, 1, 0⟩ := by
  have hnotshort : ¬ secret.length < prefixLen := Nat.not_lt.mpr hlen
  have hany : (issuedRecord hashFn ownerId secret salt now newId :: store).any
      (fun r => r.id == newId) = true := by
    simp [List.any_cons, issuedRecord]
  refine ⟨(issuedRecord hashFn ownerId secret salt now newId :: store).map
      (fun r => if r.id = newId then { r with revokedAt := some (r.revokedAt.getD t) }
                else r), ?_, ?_⟩
  · simp [revoke, hany]
  · have hmapnil : findCandidatesByPrefix (store.map
        (fun r => if r.id = newId then { r with revokedAt := some (r.revokedAt.getD t) }
                  else r)) (secret.take prefixLen) = [] := by
      rw [findCandidatesByPrefix, List.filter_eq_nil_iff]
      intro r' hr'
      rcases List.mem_map.mp hr' with ⟨r, hr, rfl⟩
      have hsame : (if r.id = newId
          then { r with revokedAt := some (r.revokedAt.getD t) } else r).lookupPrefix
          = r.lookupPrefix := by
        by_cases h : r.id = newId <;> simp [h]
      simp [hsame, hnoshare r hr]
    have hhead : (if (issuedRecord hashFn ownerId secret salt now newId).id = newId
        then { issuedRecord hashFn ownerId secret salt now newId with
               revokedAt := some ((issuedRecord hashFn ownerId secret salt now
                 newId).revokedAt.getD t) }
        else issuedRecord hashFn ownerId secret salt now newId)
        = { issuedRecord hashFn ownerId secret salt now newId with
            revokedAt := some t } := by
      simp [issuedRecord]
    rw [List.map_cons, hhead]
    have hcands := findCandidatesByPrefix_cons_pos
      ({ issuedRecord hashFn ownerId secret salt now newId with revokedAt := some t })
      (store.map (fun r => if r.id = newId
        then { r with revokedAt := some (r.revokedAt.getD t) } else r))
      (secret.take prefixLen) (by simp [issuedRecord])
    simp [verify, hnotshort, hcands, hmapnil, scanCandidates]

/-- Witness for C2: issuing the sample secret into the empty store, revoking
it, then verifying the secret yields `Invalid` with zero hash comparisons. -/
theorem verify_after_revoke_invalid_witness :
    (prefixLen ≤ sampleSecret.length ∧
      ∀ r ∈ ([] : List CredentialRecord), r.lookupPrefix ≠ sampleSecret.take prefixLen) ∧
    ∃ store3,
      revoke [issuedRecord sampleHash sampleOwner sampleSecret sampleSalt 0 1] 1 5 =
        Except.ok store3 ∧
      verify sampleHash store3 sampleSecret = ⟨VerifyResult.Invalid, 1, 0⟩ :=
  ⟨⟨by decide, by simp⟩,
    verify_after_revoke_invalid sampleHash [] sampleOwner sampleSecret sampleSalt 0 1 5
      (by decide) (by simp)⟩

/-- Taking at most the first `m` elements ignores a `set` at an index at or
past `m`. -/
theorem take_set_of_le {α : Type} (a : α) {m n : Nat} (l : List α) (h : m ≤ n) :
    (l.set n a).take m = l.take m := by
  apply List.ext_getElem
  · simp
  · intro j h1 h2
    have hj : j < m := by
      simp [List.length_take, List.length_set] at h1
      omega
    rw [List.getElem_take, List.getElem_take, List.getElem_set]
    have hnj : ¬ n = j := by omega
    simp [hnj]

/-- C3: replacing any single character of a valid issued secret by a
different character makes verification return `Invalid` — within the lookup
slice the candidate lookup finds nothing, past it the digest comparison
fails. -/
theorem verify_flipped_char_invalid (hashFn : List Char → List Char → List Char)
    (ownerId secret salt : List Char) (now newId i : Nat) (c : Char)
    (hlen : prefixLen ≤ secret.length)
    (hi : i < secret.length)
    (hc : secret.get ⟨i, hi⟩ ≠ c)
    (hhash : hashFn salt (secret.set i c) ≠ hashFn salt secret) :
    (verify hashFn [issuedRecord hashFn ownerId secret salt now newId]
      (secret.set i c)).result = VerifyResult.Invalid := by
  have hnotshort : ¬ (secret.set i c).length < prefixLen := by
    rw [List.length_set]
    exact Nat.not_lt.mpr hlen
  have hns : ¬ secret.length < prefixLen := Nat.not_lt.mpr hlen
  by_cases hip : i < prefixLen
  · have hne : (secret.set i c).take prefixLen ≠ secret.take prefixLen := by
      intro heq
      have hcontra := congrArg (fun l : List Char => l[i]?) heq
      simp only [List.getElem?_take, List.getElem?_set, hip, if_true, hi,
        List.getElem?_eq_getElem hi, if_pos] at hcontra
      apply hc
      rw [List.get_eq_getElem]
      exact (Option.some.injEq _ _ ▸ hcontra).symm
    have hcand : findCandidatesByPrefix
        [issuedRecord hashFn ownerId secret salt now newId]
        ((secret.set i c).take prefixLen) = [] := by
      rw [findCandidatesByPrefix, List.filter_eq_nil_iff]
      intro r hr
      rw [List.mem_singleton] at hr
      subst hr
      simp [issuedRecord]
      exact fun h => hne h.symm
    simp [verify, hnotshort, hns, hcand, scanCandidates]
  · have htake : (secret.set i c).take prefixLen = secret.take prefixLen :=
      take_set_of_le c secret (Nat.not_lt.mp hip)
    simp [verify, hnotshort, hns, htake, findCandidatesByPrefix, List.filter_cons,
      issuedRecord, scanCandidates, hhash]

/-- Witness for C3: flipping character 20 of the sample secret to a
different character yields `Invalid`. -/
theorem verify_flipped_char_invalid_witness :
    (prefixLen ≤ sampleSecret.length ∧ 20 < sampleSecret.length) ∧
      (verify sampleHash [issuedRecord sampleHash sampleOwner sampleSecret sampleSalt 0 1]
        (sampleSecret.set 20 'z')).result = VerifyResult.Invalid :=
  ⟨⟨by decide, by decide⟩,
    verify_flipped_char_invalid sampleHash sampleOwner sampleSecret sampleSalt 0 1 20 'z'
      (by decide) (by decide) (by decide) (by decide)⟩

/-- Counterexample for C5: with the secret issued into the store, verifying
the plaintext with one character appended passes the length check of the
`Start` state (37 is not shorter than 17), so the prefix lookup runs: the
result is `Invalid` but the store's lookup counter is 1, not 0. -/
theorem verify_appended_char_store_calls_counterexample :
    (verify sampleHash sampleStore (sampleSecret ++ ['x'])).result =
      VerifyResult.Invalid ∧
    (verify sampleHash sampleStore (sampleSecret ++ ['x'])).storeLookups ≠ 0 := by
  constructor
  · decide
  · decide

/-- C5 (amended): verifying the issued plaintext with one extra character
appended returns `Invalid`, with exactly one store lookup and one hash
comparison — the 17-character slice still matches, so the lookup is not
skipped. -/
theorem verify_appended_char_one_lookup (hashFn : List Char → List Char → List Char)
    (ownerId secret salt : List Char) (now newId : Nat)
    (hlen : prefixLen ≤ secret.length)
    (hhash : hashFn salt (secret ++ ['x']) ≠ hashFn salt secret) :
    verify hashFn [issuedRecord hashFn ownerId secret salt now newId]
      (secret ++ ['x']) = ⟨VerifyResult.Invalid, 1, 1⟩ := by
  have hns : ¬ (secret ++ ['x']).length < prefixLen := by
    rw [List.length_append, List.length_singleton]
    omega
  have htake : (secret ++ ['x']).take prefixLen = secret.take prefixLen :=
    List.take_append_of_le_length hlen
  have hle : prefixLen ≤ secret.length + 1 := Nat.le_succ_of_le hlen
  simp [verify, hns, hle, htake, findCandidatesByPrefix, List.filter_cons, issuedRecord,
    scanCandidates, hhash]

/-- Witness for the amended C5 at the sample credential. -/
theorem verify_appended_char_one_lookup_witness :
    (prefixLen ≤ sampleSecret.length ∧
      sampleHash sampleSalt (sampleSecret ++ ['x']) ≠ sampleHash sampleSalt sampleSecret) ∧
    verify sampleHash [issuedRecord sampleHash sampleOwner sampleSecret sampleSalt 0 1]
      (sampleSecret ++ ['x']) = ⟨VerifyResult.Invalid, 1, 1⟩ :=
  ⟨⟨by decide, by decide⟩,
    verify_appended_char_one_lookup sampleHash sampleOwner sampleSecret sampleSalt 0 1
      (by decide) (by decide)⟩

/-- C6: the three verification failure modes — empty candidate set, all
candidates revoked, and digest mismatch on every live candidate — produce
identical observable outcomes: the same `Invalid` result with no
distinguishing detail. -/
theorem verify_failure_modes_indistinguishable
    (hashFn : List Char → List Char → List Char)
    (s1 s2 s3 : List CredentialRecord) (p1 p2 p3 : List Char)
    (h1len : prefixLen ≤ p1.length) (h2len : prefixLen ≤ p2.length)
    (h3len : prefixLen ≤ p3.length)
    (h1 : findCandidatesByPrefix s1 (p1.take prefixLen) = [])
    (h2ne : findCandidatesByPrefix s2 (p2.take prefixLen) ≠ [])
    (h2 : ∀ r ∈ findCandidatesByPrefix s2 (p2.take prefixLen),
        r.revokedAt.isSome = true)
    (h3ne : findCandidatesByPrefix s3 (p3.take prefixLen) ≠ [])
    (h3 : ∀ r ∈ findCandidatesByPrefix s3 (p3.take prefixLen),
        r.revokedAt = none ∧ hashFn r.salt p3 ≠ r.secretDigest) :
    (verify hashFn s1 p1).result = VerifyResult.Invalid ∧
    (verify hashFn s2 p2).result = (verify hashFn s1 p1).result ∧
    (verify hashFn s3 p3).result = (verify hashFn s1 p1).result := by
  have hn1 : ¬ p1.length < prefixLen := Nat.not_lt.mpr h1len
  have hn2 : ¬ p2.length < prefixLen := Nat.not_lt.mpr h2len
  have hn3 : ¬ p3.length < prefixLen := Nat.not_lt.mpr h3len
  have r1 : (verify hashFn s1 p1).result = VerifyResult.Invalid := by
    simp [verify, hn1, h1, scanCandidates]
  have r2 : (verify hashFn s2 p2).result = VerifyResult.Invalid := by
    have hs := scanCandidates_all_fail hashFn p2
      (findCandidatesByPrefix s2 (p2.take prefixLen))
      (fun r hr => Or.inl (h2 r hr))
    simp [verify, hn2, hs]
  have r3 : (verify hashFn s3 p3).result = VerifyResult.Invalid := by
    have hs := scanCandidates_all_fail hashFn p3
      (findCandidatesByPrefix s3 (p3.take prefixLen))
      (fun r hr => Or.inr (h3 r hr).2)
    simp [verify, hn3, hs]
  exact ⟨r1, r2.trans r1.symm, r3.trans r1.symm⟩

/-- Witness for C6: an empty store, a store holding only the revoked sample
record, and the sample store presented with a flipped-suffix secret all
verify to the same `Invalid` result. -/
theorem verify_failure_modes_indistinguishable_witness :
    ((prefixLen ≤ sampleSecret.length ∧
       findCandidatesByPrefix [] (sampleSecret.take prefixLen) = []) ∧
     (findCandidatesByPrefix
        [{ issuedRecord sampleHash sampleOwner sampleSecret sampleSalt 0 1 with
           revokedAt := some 3 }] (sampleSecret.take prefixLen) ≠ [] ∧
      ∀ r ∈ findCandidatesByPrefix
        [{ issuedRecord sampleHash sampleOwner sampleSecret sampleSalt 0 1 with
           revokedAt := some 3 }] (sampleSecret.take prefixLen),
        r.revokedAt.isSome = true) ∧
     (findCandidatesByPrefix sampleStore ((sampleSecret.set 20 'z').take prefixLen) ≠ [] ∧
      ∀ r ∈ findCandidatesByPrefix sampleStore ((sampleSecret.set 20 'z').take prefixLen),
        r.revokedAt = none ∧ sampleHash r.salt (sampleSecret.set 20 'z') ≠ r.secretDigest)) ∧
    ((verify sampleHash [] sampleSecret).result = VerifyResult.Invalid ∧
     (verify sampleHash
        [{ issuedRecord sampleHash sampleOwner sampleSecret sampleSalt 0 1 with
           revokedAt := some 3 }] sampleSecret).result =
       (verify sampleHash [] sampleSecret).result ∧
     (verify sampleHash sampleStore (sampleSecret.set 20 'z')).result =
       (verify sampleHash [] sampleSecret).result) :=
  ⟨⟨⟨by decide, by decide⟩, ⟨by decide, by decide⟩, ⟨by decide, by decide⟩⟩,
    verify_failure_modes_indistinguishable sampleHash
      [] [{ issuedRecord sampleHash sampleOwner sampleSecret sampleSalt 0 1 with
            revokedAt := some 3 }] sampleStore
      sampleSecret sampleSecret (sampleSecret.set 20 'z')
      (by decide) (by decide) (by decide) (by decide) (by decide) (by decide)
      (by decide) (by decide)⟩

/-- Character class of a canonical lowercase UUID string: hex digits and the
dash. -/
def isHexLowerOrDash (c : Char) : Bool :=
  c.isDigit || (decide ('a' ≤ c) && decide (c ≤ 'f')) || c == '-'

/-- A canonical UUID string as produced by the generator in
src/api/test_api_key_logic.js line 9: 36 characters, lowercase hex, dashes
at positions 8, 13, 18 and 23. -/
def canonicalUuid (u : List Char) : Prop :=
  u.length = 36 ∧ (∀ c ∈ u, isHexLowerOrDash c = true) ∧
  u[8]? = some '-' ∧ u[13]? = some '-' ∧ u[18]? = some '-' ∧ u[23]? = some '-'

instance (u : List Char) : Decidable (canonicalUuid u) := by
  unfold canonicalUuid
  infer_instance

/-- Leading signature of a bcrypt digest at cost 10 as produced by
`bcrypt.hash(apiKey, 10)` in src/api/test_api_key_logic.js line 12. -/
def bcryptSig : List Char := ['$', '2', 'a', '$', '1', '0', '$']

/-- The radix-64 alphabet bcrypt encodes its salt and hash bytes with:
dot, slash, digits and ASCII letters. -/
def isBcryptB64 (c : Char) : Bool :=
  c == '.' || c == '/' || c.isDigit ||
  (decide ('A' ≤ c) && decide (c ≤ 'Z')) || (decide ('a' ≤ c) && decide (c ≤ 'z'))

/-- The documented output format of the external bcrypt library: the version
and cost signature followed by radix-64 characters only (the Blowfish-derived
bytes themselves stay abstract). -/
def isBcryptFormatted (d : List Char) : Prop :=
  ∃ rest, d = bcryptSig ++ rest ∧ ∀ c ∈ rest, isBcryptB64 c = true

/-- A bcrypt-formatted digest contains no dash character. -/
theorem bcryptFormatted_no_dash {d : List Char} (hd : isBcryptFormatted d) :
    ∀ c ∈ d, c ≠ '-' := by
  rcases hd with ⟨rest, rfl, hrest⟩
  intro c hc hEq
  subst hEq
  rcases List.mem_append.mp hc with h | h
  · simp [bcryptSig] at h
  · exact absurd (hrest _ h) (by decide)

/-- C8: the persisted `secretDigest` of an issued record never equals the
plaintext secret, does not contain it as a substring, and is not a substring
of it; of the plaintext only the bounded 17-character `lookupPrefix` (itself
shorter than, hence different from, the full plaintext) and the digest are
stored. -/
theorem issued_digest_never_reveals_plaintext
    (hashFn : List Char → List Char → List Char)
    (ownerId secret salt : List Char) (now newId : Nat)
    (huuid : canonicalUuid secret)
    (hfmt : isBcryptFormatted (hashFn salt secret)) :
    (issuedRecord hashFn ownerId secret salt now newId).secretDigest ≠ secret ∧
    ¬ secret <:+: (issuedRecord hashFn ownerId secret salt now newId).secretDigest ∧
    ¬ (issuedRecord hashFn ownerId secret salt now newId).secretDigest <:+: secret ∧
    (issuedRecord hashFn ownerId secret salt now newId).lookupPrefix =
      secret.take prefixLen ∧
    (issuedRecord hashFn ownerId secret salt now newId).lookupPrefix ≠ secret := by
  obtain ⟨hlen36, hall, h8, -, -, -⟩ := huuid
  have hnodash : ∀ c ∈ hashFn salt secret, c ≠ '-' := bcryptFormatted_no_dash hfmt
  have hdash_mem : '-' ∈ secret := List.getElem?_mem h8
  have hdollar : '$' ∈ hashFn salt secret := by
    rcases hfmt with ⟨rest, heq, -⟩
    rw [heq]
    exact List.mem_append_left _ (by decide)
  refine ⟨?_, ?_, ?_, rfl, ?_⟩
  · intro heq
    have hd : hashFn salt secret = secret := heq
    exact hnodash '-' (by rw [hd]; exact hdash_mem) rfl
  · intro hinf
    exact hnodash '-' (hinf.subset hdash_mem) rfl
  · intro hinf
    exact absurd (hall '$' (hinf.subset hdollar)) (by decide)
  · intro heq
    have hd : secret.take prefixLen = secret := heq
    have hlen' := congrArg List.length hd
    rw [List.length_take, hlen36] at hlen'
    rw [show prefixLen = 17 from rfl] at hlen'
    omega

/-- A concrete bcrypt-shaped digest function for the C8 witness. -/
def sampleBcryptHash : List Char → List Char → List Char :=
  fun _ _ => bcryptSig ++ "abcDEF012".toList

/-- Witness for C8 at the sample secret and a concrete bcrypt-shaped
digest. -/
theorem issued_digest_never_reveals_plaintext_witness :
    (canonicalUuid sampleSecret ∧
      isBcryptFormatted (sampleBcryptHash sampleSalt sampleSecret)) ∧
    ((issuedRecord sampleBcryptHash sampleOwner sampleSecret sampleSalt 0
        1).secretDigest ≠ sampleSecret ∧
     ¬ sampleSecret <:+: (issuedRecord sampleBcryptHash sampleOwner sampleSecret
        sampleSalt 0 1).secretDigest ∧
     ¬ (issuedRecord sampleBcryptHash sampleOwner sampleSecret sampleSalt 0
        1).secretDigest <:+: sampleSecret ∧
     (issuedRecord sampleBcryptHash sampleOwner sampleSecret sampleSalt 0
        1).lookupPrefix = sampleSecret.take prefixLen ∧
     (issuedRecord sampleBcryptHash sampleOwner sampleSecret sampleSalt 0
        1).lookupPrefix ≠ sampleSecret) :=
  ⟨⟨by decide, ⟨"abcDEF012".toList, rfl, by decide⟩⟩,
    issued_digest_never_reveals_plaintext sampleBcryptHash sampleOwner sampleSecret
      sampleSalt 0 1 (by decide) ⟨"abcDEF012".toList, rfl, by decide⟩⟩

/-- The metacharacters of the JavaScript `RegExp` pattern language.  None of
them is escaped when src/api/test_api_key_logic.js line 32 splices the
presented key's leading 17 characters into the pattern string. -/
def regexSpecialChars : List Char :=
  ['\\', '^', '$', '.', '|', '?', '*', '+', '(', ')', '[', ']', '\x7b', '\x7d']

/-- Whether a character is regex-special. -/
def regexSpecial (c : Char) : Bool := regexSpecialChars.contains c

/-- Group balancing of a pattern fragment: a closing parenthesis with no
open group, or a group left open at the end of the pattern, makes the
`RegExp` constructor throw a SyntaxError. -/
def groupScanOk : Nat → List Char → Bool
  | depth, [] => depth == 0
  | depth, c :: rest =>
    if c == '(' then groupScanOk (depth + 1) rest
    else if c == ')' then
      match depth with
      | 0 => false
      | d + 1 => groupScanOk d rest
    else groupScanOk depth rest

/-- A pattern fragment with an unmatched group parenthesis. -/
def hasUnmatchedGroup (p : List Char) : Bool := !(groupScanOk 0 p)

/-- Failure modes of building the candidate-matching regex: the constructor
throws on invalid syntax (such as an unmatched group), and a syntactically
valid pattern containing metacharacters is outside this model's matching
semantics. -/
inductive JsRegexError where
  | syntaxError
  | unmodelledPattern
deriving DecidableEq, Repr

/-- The mock stored document of src/api/test_api_key_logic.js lines 19-23. -/
structure MockDbApiKey where
  apiKey : List Char
  hashedApiKey : List Char
  revokedAt : Option Nat
deriving DecidableEq, Repr

/-- The validation path of src/api/test_api_key_logic.js lines 30-48: take
the leading 17 characters of the incoming key, build the anchored regex from
them unescaped, test it against the stored (masked) key, and on a match run
the bcrypt comparison.  A prefix with an unmatched group makes the `RegExp`
constructor throw (`syntaxError`); an all-literal prefix matches exactly
when it is a literal prefix of the stored value; a valid pattern that still
contains metacharacters is not given matching semantics here
(`unmodelledPattern`). -/
def codeVerify (bcryptCompare : List Char → List Char → Bool)
    (incomingApiKey : List Char) (mockDb : MockDbApiKey) :
    Except JsRegexError Bool :=
  let pfx := incomingApiKey.take 17
  if hasUnmatchedGroup pfx then
    Except.error JsRegexError.syntaxError
  else if pfx.all (fun c => !(regexSpecial c)) then
    if pfx.isPrefixOf mockDb.apiKey then
      Except.ok (bcryptCompare incomingApiKey mockDb.hashedApiKey)
    else
      Except.ok false
  else
    Except.error JsRegexError.unmodelledPattern

/-- A regex-special character is never a canonical-UUID character. -/
theorem special_not_hexLowerOrDash (c : Char) (h : regexSpecial c = true) :
    isHexLowerOrDash c = false := by
  have hm : c ∈ regexSpecialChars := List.mem_of_elem_eq_true h
  fin_cases hm <;> decide

/-- Group scanning over a pattern without special characters leaves the
depth untouched. -/
theorem groupScanOk_of_no_special (p : List Char) :
    p.all (fun c => !(regexSpecial c)) = true → ∀ d, groupScanOk d p = (d == 0) := by
  induction p with
  | nil =>
    intro _ d
    rfl
  | cons c rest ih =>
    intro h d
    rw [List.all_cons, Bool.and_eq_true] at h
    obtain ⟨hc, hrest⟩ := h
    rw [Bool.not_eq_true'] at hc
    have h1 : c ≠ '(' := by
      intro hEq
      subst hEq
      exact absurd hc (by decide)
    have h2 : c ≠ ')' := by
      intro hEq
      subst hEq
      exact absurd hc (by decide)
    simp [groupScanOk, h1, h2, ih hrest d]

/-- C9: the embedded verification splices the unescaped leading 17
characters of the presented value into an anchored regex, so it is total
only on well-shaped inputs: some presented value whose prefix holds a regex
metacharacter (an unmatched left parenthesis) makes it raise an error
instead of returning a verdict, while a prefix free of regex-special
characters never reaches an error branch — and every canonical-UUID
character is regex-safe. -/
theorem codeVerify_regex_partiality :
    (∃ incoming mockDb cmp,
        codeVerify cmp incoming mockDb = Except.error JsRegexError.syntaxError ∧
        ∃ c ∈ incoming.take 17, regexSpecial c = true) ∧
    (∀ (cmp : List Char → List Char → Bool) incoming mockDb,
        (incoming.take 17).all (fun c => !(regexSpecial c)) = true →
        ∃ b, codeVerify cmp incoming mockDb = Except.ok b) ∧
    (∀ u : List Char, (∀ c ∈ u, isHexLowerOrDash c = true) →
        (u.take 17).all (fun c => !(regexSpecial c)) = true) := by
  refine ⟨?_, ?_, ?_⟩
  · refine ⟨"aaaaaaaaaaaaaaaa(extra".toList, ⟨[], [], none⟩, fun _ _ => false, ?_, ?_⟩
    · rfl
    · exact ⟨'(', by decide, by decide⟩
  · intro cmp incoming mockDb hall
    have hg : hasUnmatchedGroup (incoming.take 17) = false := by
      unfold hasUnmatchedGroup
      rw [groupScanOk_of_no_special _ hall 0]
      rfl
    by_cases hp : (incoming.take 17).isPrefixOf mockDb.apiKey
    · exact ⟨cmp incoming mockDb.hashedApiKey, by simp [codeVerify, hg, hall, hp]⟩
    · exact ⟨false, by simp [codeVerify, hg, hall, hp]⟩
  · intro u hu
    rw [List.all_eq_true]
    intro c hc
    have hhex := hu c (List.mem_of_mem_take hc)
    cases hs : regexSpecial c
    · rfl
    · have hf := special_not_hexLowerOrDash c hs
      rw [hf] at hhex
      simp at hhex

/-- Witness for C9: the UUID-shaped sample secret has a regex-safe prefix,
so the embedded verification returns a verdict on it. -/
theorem codeVerify_regex_partiality_witness :
    ((sampleSecret.take 17).all (fun c => !(regexSpecial c)) = true) ∧
    ∃ b, codeVerify (fun _ _ => true) sampleSecret
        ⟨storedApiKey sampleSecret, [], none⟩ = Except.ok b :=
  ⟨by decide,
    codeVerify_regex_partiality.2.1 (fun _ _ => true) sampleSecret
      ⟨storedApiKey sampleSecret, [], none⟩ (by decide)⟩
